import Mathlib

/-!
Shallow embedding of the BauCua gambling game (peer-to-peer betting game,
React + PeerJS). The source of truth is the main application component
(`src/unnamed/part_001`, referred to below as App) together with
`src/constants.ts` and `src/types.ts`.

Modelling conventions:
* TypeScript `number`s holding money are modelled as `Int` for balances
  (which are subtracted from) and `Nat` for wager amounts (which are only
  ever created as non-negative increments and sums).
* React `useState`/`useRef` cells become fields of explicit state records;
  each handler becomes a pure function from state to state.
* Host-side side effects (`conn.send`, `broadcast`, mutations of the
  `allPlayersBetsRef` / `playersInfoRef` maps, `conn.close`) are recorded in
  an ordered `Action` trace so that ordering claims can be stated.
* UI-only effects (`setMessage` on the Host, `logDebug`, CSS, clipboard,
  URL manipulation) and the PeerJS transport itself are elided; the
  Host-local `setGlobalBets`/`setLeaderboard` mirror writes are elided on the
  Host side because the broadcast carries the identical payload.
-/

namespace BauCua

/-- The six game items, `GameItemKey` in `src/types.ts`. -/
inductive GameItemKey
  | NAI
  | BAU
  | GA
  | CA
  | CUA
  | TOM
deriving DecidableEq, Repr

/-- The key order of `GAME_ITEMS` in `src/constants.ts`, which is also the
iteration order of `Object.keys` over a bets record built by `getEmptyBets`. -/
def allKeys : List GameItemKey := [.NAI, .BAU, .GA, .CA, .CUA, .TOM]

/-- A wager vector, `Record<GameItemKey, number>` in the source. -/
structure WagerVector where
  nai : Nat
  bau : Nat
  ga : Nat
  ca : Nat
  cua : Nat
  tom : Nat
deriving DecidableEq, Repr

/-- Read one entry of a wager vector (`bets[key]`). -/
def WagerVector.get (w : WagerVector) : GameItemKey → Nat
  | .NAI => w.nai
  | .BAU => w.bau
  | .GA => w.ga
  | .CA => w.ca
  | .CUA => w.cua
  | .TOM => w.tom

/-- Write one entry of a wager vector (`bets[key] = v`). -/
def WagerVector.set (w : WagerVector) : GameItemKey → Nat → WagerVector
  | .NAI, v => { w with nai := v }
  | .BAU, v => { w with bau := v }
  | .GA, v => { w with ga := v }
  | .CA, v => { w with ca := v }
  | .CUA, v => { w with cua := v }
  | .TOM, v => { w with tom := v }

/-- Pointwise sum of two wager vectors; models the inner
`newGlobalBets[key] += playerBets[key]` loop of `calculateGlobalBetsFromRef`. -/
def WagerVector.add (w v : WagerVector) : WagerVector :=
  ⟨w.nai + v.nai, w.bau + v.bau, w.ga + v.ga, w.ca + v.ca, w.cua + v.cua, w.tom + v.tom⟩

/-- `getEmptyBets()` from App: the all-zero wager vector. -/
def getEmptyBets : WagerVector := ⟨0, 0, 0, 0, 0, 0⟩

/-- `BET_INCREMENT` from `src/constants.ts`. -/
def BET_INCREMENT : Nat := 5000

/-- `INITIAL_BALANCE` from `src/constants.ts`. -/
def INITIAL_BALANCE : Int := 100000

/-- `MIN_BALANCE_TO_JOIN` from `src/constants.ts`. -/
def MIN_BALANCE_TO_JOIN : Int := 10000

/-- `MIN_BALANCE_TO_STAY` from `src/constants.ts`. -/
def MIN_BALANCE_TO_STAY : Int := 5000

/-- Total of a participant's own wager vector: the `currentTotalBet`
reduction in App (`Object.values(bets).reduce((a, b) => a + b, 0)`), which is
also the `totalBets` accumulation in `handleResetBets` and the
`currentTotalBet` accumulation in `calculateWinnings`. -/
def currentTotalBet (w : WagerVector) : Nat :=
  (allKeys.map w.get).sum

/-- Per-key return of the settlement loop body in `calculateWinnings`:
`if (betAmount > 0 && appearances > 0) totalReturn += refund + profit`. -/
def keyReturn (bets : WagerVector) (results : List GameItemKey) (key : GameItemKey) : Nat :=
  let betAmount := bets.get key
  let appearances := results.count key
  if 0 < betAmount ∧ 0 < appearances then betAmount + betAmount * appearances else 0

/-- The `totalReturn` accumulated by `calculateWinnings` over all item keys. -/
def totalReturn (bets : WagerVector) (results : List GameItemKey) : Nat :=
  (allKeys.map (keyReturn bets results)).sum

/-- The local (per-peer) state touched by the betting handlers in App:
`balance`, `bets`, and the `isShaking` flag that gates them. -/
structure LocalState where
  balance : Int
  bets : WagerVector
  isShaking : Bool
deriving DecidableEq, Repr

/-- The payload of `setResultState` in `calculateWinnings` (the `show` flag,
which is UI-only, is elided). -/
structure ResultState where
  winAmount : Nat
  totalBet : Nat
  results : List GameItemKey
deriving DecidableEq, Repr

/-- `calculateWinnings(results)` from App, acting on the local state: credits
the balance with the total return, clears the local bets, and produces the
result-overlay payload. The `setMessage` branch is modelled in the client
state machine below. -/
def calculateWinnings (s : LocalState) (results : List GameItemKey) :
    LocalState × ResultState :=
  let tr := totalReturn s.bets results
  let tb := currentTotalBet s.bets
  ({ s with balance := s.balance + (tr : Int), bets := getEmptyBets },
   { winAmount := tr, totalBet := tb, results := results })

/-- `handlePlaceBet(key)` from App: no-op while shaking, refused when the
balance cannot cover one increment, otherwise moves one `BET_INCREMENT` from
the balance into the chosen key of the local bets. (The network forwarding of
the bet is modelled by the Host event machinery below.) -/
def handlePlaceBet (s : LocalState) (key : GameItemKey) : LocalState :=
  if s.isShaking then s
  else if s.balance < (BET_INCREMENT : Int) then s
  else
    { s with
      balance := s.balance - (BET_INCREMENT : Int),
      bets := s.bets.set key (s.bets.get key + BET_INCREMENT) }

/-- `handleResetBets()` from App: no-op while shaking, otherwise refunds the
whole current wager total into the balance and clears the local bets. -/
def handleResetBets (s : LocalState) : LocalState :=
  if s.isShaking then s
  else
    { s with
      balance := s.balance + (currentTotalBet s.bets : Int),
      bets := getEmptyBets }

/-- A single-key wager vector: amount `a` on key `k`, zero elsewhere. -/
def singleBet (k : GameItemKey) (a : Nat) : WagerVector :=
  getEmptyBets.set k a

/-- `PlayerInfo` from `src/types.ts`. -/
structure PlayerInfo where
  id : String
  name : String
  balance : Int
  isHost : Bool
deriving DecidableEq, Repr

/-- `NetworkMessage` from `src/types.ts`: the tagged union carried over the
peer links. -/
inductive NetworkMessage
  | shakeStart
  | shakeResult (results : List GameItemKey)
  | placeBet (key : GameItemKey) (amount : Nat)
  | resetBets
  | updateGlobalBets (bets : WagerVector)
  | playerUpdate (info : PlayerInfo)
  | leaderboardUpdate (players : List PlayerInfo)
  | playerJoined (playerName : String)
  | playerLeft (playerName : String)
  | kickedNoMoney
  | joinRequest (playerInfo : PlayerInfo)
  | joinAccepted (globalBets : WagerVector) (players : List PlayerInfo)
  | joinRejected (reason : String)
deriving DecidableEq, Repr

/-- Helper for `formatMoney`: insert a thousands separator every three
digits, working over the reversed digit list. -/
def insertDots : List Char → List Char
  | a :: b :: c :: d :: rest => a :: b :: c :: '.' :: insertDots (d :: rest)
  | l => l

/-- `formatMoney` from App: `Intl.NumberFormat('vi-VN')` grouping (dots every
three digits) followed by the currency sign. -/
def formatMoney (amount : Int) : String :=
  (if amount < 0 then "-" else "")
    ++ String.mk (insertDots amount.natAbs.repr.data.reverse).reverse ++ "đ"

/-- The rejection reason the Host sends on an underfunded `JOIN_REQUEST`. -/
def joinRejectReason : String :=
  "Cần tối thiểu " ++ formatMoney MIN_BALANCE_TO_JOIN ++ " để vào phòng."

/-- Client-side state touched by `handleClientReceivedMessage` in App: the
local wallet plus the read-only mirrors of the Host broadcasts. Fields whose
updates happen only inside deferred `setTimeout` callbacks (role / room
teardown after a rejection or kick) are elided. -/
structure ClientState where
  balance : Int
  bets : WagerVector
  isShaking : Bool
  globalBets : WagerVector
  diceResult : List GameItemKey
  leaderboard : List PlayerInfo
  message : String
  resultState : Option ResultState
deriving DecidableEq, Repr

/-- The client-side run of `calculateWinnings(results)` including its
`setMessage` branches, as invoked from the `SHAKE_RESULT` handler. -/
def clientCalculateWinnings (s : ClientState) (results : List GameItemKey) : ClientState :=
  let tr := totalReturn s.bets results
  let tb := currentTotalBet s.bets
  { s with
    balance := s.balance + (tr : Int),
    bets := getEmptyBets,
    resultState := some { winAmount := tr, totalBet := tb, results := results },
    message :=
      if 0 < tb then
        if tb < tr then "Thắng +" ++ formatMoney ((tr : Int) - (tb : Int)) ++ "!"
        else if 0 < tr then "Hòa vốn."
        else "Thua " ++ formatMoney (tb : Int) ++ "."
      else "Kết quả đã có!" }

/-- `handleClientReceivedMessage(msg)` from App: the Client mirror reducer.
Messages a Client never receives (`JOIN_REQUEST`, `PLACE_BET`, `RESET_BETS`,
`PLAYER_UPDATE`) fall through with no effect, like unknown tags do. -/
def handleClientReceivedMessage (s : ClientState) : NetworkMessage → ClientState
  | .joinAccepted globalBets players =>
    { s with globalBets := globalBets, leaderboard := players,
             message := "Đã vào phòng thành công! Chúc may mắn!" }
  | .joinRejected reason => { s with message := reason }
  | .kickedNoMoney => { s with message := "Bạn đã hết tiền! Đang rời phòng..." }
  | .playerJoined playerName => { s with message := "🎉 " ++ playerName ++ " đã vào phòng!" }
  | .playerLeft playerName => { s with message := "👋 " ++ playerName ++ " đã rời phòng." }
  | .shakeStart =>
    { s with isShaking := true, resultState := none, message := "Chủ phòng đang lắc..." }
  | .shakeResult results =>
    clientCalculateWinnings { s with isShaking := false, diceResult := results } results
  | .updateGlobalBets bets => { s with globalBets := bets }
  | .leaderboardUpdate players => { s with leaderboard := players }
  | _ => s

/-- Lookup in an insertion-ordered association list; models
`Map.prototype.get`. -/
def mapGet {α : Type} : List (String × α) → String → Option α
  | [], _ => none
  | (k', v') :: rest, k => if k' = k then some v' else mapGet rest k

/-- Overwrite-or-append in an insertion-ordered association list; models
`Map.prototype.set`. -/
def mapSet {α : Type} : List (String × α) → String → α → List (String × α)
  | [], k, v => [(k, v)]
  | (k', v') :: rest, k, v =>
    if k' = k then (k, v) :: rest else (k', v') :: mapSet rest k v

/-- Deletion from an insertion-ordered association list; models
`Map.prototype.delete`. -/
def mapDelete {α : Type} : List (String × α) → String → List (String × α)
  | [], _ => []
  | (k', v') :: rest, k =>
    if k' = k then mapDelete rest k else (k', v') :: mapDelete rest k

/-- The Host-side mutable state of App: `connectionsRef` (as the list of
connected peer ids), `allPlayersBetsRef` (the Ledger) and `playersInfoRef`
(the Membership Registry). -/
structure HostState where
  connections : List String
  ledger : List (String × WagerVector)
  registry : List (String × PlayerInfo)
deriving DecidableEq, Repr

/-- One observable Host-side effect, recorded in source order: a `conn.send`
to one peer, a `broadcast`, a scheduled `conn.close`, or one mutation of the
connection list / Ledger / Registry. -/
inductive Action
  | sendTo (peerId : String) (msg : NetworkMessage)
  | broadcastMsg (msg : NetworkMessage)
  | connAdd (peerId : String)
  | connCloseReq (peerId : String)
  | connRemove (peerId : String)
  | ledgerSet (peerId : String) (w : WagerVector)
  | ledgerDelete (peerId : String)
  | registrySet (peerId : String) (info : PlayerInfo)
  | registryDelete (peerId : String)
deriving DecidableEq, Repr

/-- `calculateGlobalBetsFromRef()` from App: fold the key-wise sum of every
Ledger entry starting from the empty vector. -/
def calculateGlobalBetsFromRef (ledger : List (String × WagerVector)) : WagerVector :=
  ledger.foldl (fun acc e => acc.add e.2) getEmptyBets

/-- `updateAndBroadcastGlobalBets()` from App: recompute the aggregate from
the current Ledger and broadcast it. (The Host-local `setGlobalBets` mirror
write carries the same payload and is elided.) -/
def updateAndBroadcastGlobalBets (s : HostState) : List Action :=
  [.broadcastMsg (.updateGlobalBets (calculateGlobalBetsFromRef s.ledger))]

/-- `updateAndBroadcastLeaderboard()` from App: broadcast the Registry values
in insertion order. -/
def updateAndBroadcastLeaderboard (s : HostState) : List Action :=
  [.broadcastMsg (.leaderboardUpdate (s.registry.map Prod.snd))]

/-- The body of the `playersToKick.forEach` loop in `checkAndKickBrokePlayers`
from App: if the player is still registered and its connection is found, send
the kick notice, broadcast the departure, schedule the link close, and delete
the player from Registry, Ledger and connection list (in that source order);
otherwise do nothing. -/
def kickOne (s : HostState) (playerId : String) : HostState × List Action :=
  match mapGet s.registry playerId, s.connections.contains playerId with
  | some player, true =>
    ({ connections := s.connections.filter (fun c => c ≠ playerId),
       ledger := mapDelete s.ledger playerId,
       registry := mapDelete s.registry playerId },
     [.sendTo playerId .kickedNoMoney,
      .broadcastMsg (.playerLeft player.name),
      .connCloseReq playerId,
      .registryDelete playerId,
      .ledgerDelete playerId,
      .connRemove playerId])
  | _, _ => (s, [])

/-- Sequential execution of `kickOne` over a list of player ids: the
`forEach` loop of `checkAndKickBrokePlayers`. -/
def kickAll : List String → HostState → HostState × List Action
  | [], s => (s, [])
  | pid :: rest, s =>
    let r1 := kickOne s pid
    let r2 := kickAll rest r1.1
    (r2.1, r1.2 ++ r2.2)

/-- The `playersToKick` list built at the top of `checkAndKickBrokePlayers`:
every non-host Registry entry whose balance is below `MIN_BALANCE_TO_STAY`,
in Registry insertion order. -/
def playersToKick (s : HostState) : List String :=
  (s.registry.filter
    (fun e => !e.2.isHost && decide (e.2.balance < MIN_BALANCE_TO_STAY))).map Prod.fst

/-- `checkAndKickBrokePlayers()` from App (running with `role = 'HOST'`):
collect every non-host Registry entry whose balance is below
`MIN_BALANCE_TO_STAY`, kick each in turn, and if the collected list was
non-empty rebroadcast the aggregate and the leaderboard once at the end. -/
def checkAndKickBrokePlayers (s : HostState) : HostState × List Action :=
  let r := kickAll (playersToKick s) s
  if (playersToKick s).isEmpty then r
  else
    (r.1, r.2 ++ updateAndBroadcastGlobalBets r.1 ++ updateAndBroadcastLeaderboard r.1)

/-- `handleHostReceivedMessage(msg, peerId, conn)` from App. The `conn`
argument is always the live connection the message arrived on, so it is
modelled as present. Message tags a Host never acts on fall through. -/
def handleHostReceivedMessage (s : HostState) (msg : NetworkMessage) (peerId : String) :
    HostState × List Action :=
  match msg with
  | .joinRequest info =>
    if info.balance < MIN_BALANCE_TO_JOIN then
      (s, [.sendTo peerId (.joinRejected joinRejectReason), .connCloseReq peerId])
    else
      let s1 : HostState :=
        { connections := s.connections ++ [peerId],
          ledger := mapSet s.ledger peerId getEmptyBets,
          registry := mapSet s.registry peerId info }
      (s1,
       [.connAdd peerId,
        .ledgerSet peerId getEmptyBets,
        .registrySet peerId info,
        .sendTo peerId
          (.joinAccepted (calculateGlobalBetsFromRef s1.ledger) (s1.registry.map Prod.snd)),
        .broadcastMsg (.playerJoined info.name)]
       ++ updateAndBroadcastGlobalBets s1 ++ updateAndBroadcastLeaderboard s1)
  | .placeBet key amount =>
    let playerBets := (mapGet s.ledger peerId).getD getEmptyBets
    let playerBets' := playerBets.set key (playerBets.get key + amount)
    let s1 : HostState := { s with ledger := mapSet s.ledger peerId playerBets' }
    (s1, [.ledgerSet peerId playerBets'] ++ updateAndBroadcastGlobalBets s1)
  | .resetBets =>
    let s1 : HostState := { s with ledger := mapSet s.ledger peerId getEmptyBets }
    (s1, [.ledgerSet peerId getEmptyBets] ++ updateAndBroadcastGlobalBets s1)
  | .playerUpdate info =>
    match mapGet s.registry peerId with
    | some _ =>
      let s1 : HostState := { s with registry := mapSet s.registry peerId info }
      let acts1 := [Action.registrySet peerId info] ++ updateAndBroadcastLeaderboard s1
      if info.balance < MIN_BALANCE_TO_STAY then
        let r := checkAndKickBrokePlayers s1
        (r.1, acts1 ++ r.2)
      else (s1, acts1)
    | none => (s, [])
  | _ => (s, [])

/-- The Host-side `conn.on('close')` handler from App: broadcast the
departure (if the peer was registered), then drop the connection and delete
the peer from Ledger and Registry, then rebroadcast aggregate and
leaderboard. -/
def handleConnClose (s : HostState) (peerId : String) : HostState × List Action :=
  let leftActs : List Action :=
    match mapGet s.registry peerId with
    | some player => [.broadcastMsg (.playerLeft player.name)]
    | none => []
  let s1 : HostState :=
    { connections := s.connections.filter (fun c => c ≠ peerId),
      ledger := mapDelete s.ledger peerId,
      registry := mapDelete s.registry peerId }
  (s1,
   leftActs ++ [.connRemove peerId, .ledgerDelete peerId, .registryDelete peerId]
     ++ updateAndBroadcastGlobalBets s1 ++ updateAndBroadcastLeaderboard s1)

/-- The `setTimeout` body of `handleHostShake` from App, restricted to its
Ledger effects: broadcast the outcome, reset every Ledger entry to the empty
vector, and rebroadcast the aggregate. (The Host's own settlement over its
local state is `calculateWinnings` above.) -/
def hostShakeOutcome (s : HostState) (results : List GameItemKey) : HostState × List Action :=
  let s1 : HostState := { s with ledger := s.ledger.map (fun e => (e.1, getEmptyBets)) }
  (s1,
   [Action.broadcastMsg (.shakeResult results)]
     ++ s.ledger.map (fun e => Action.ledgerSet e.1 getEmptyBets)
     ++ updateAndBroadcastGlobalBets s1)

/-- One Host-side transport event: an inbound message on a link, a link
close, or the scheduled end of a shake. -/
inductive HostEvent
  | recv (peerId : String) (msg : NetworkMessage)
  | connClose (peerId : String)
  | shakeOutcome (results : List GameItemKey)

/-- Host event dispatch: one run-to-completion handler per event. -/
def hostStep : HostEvent → HostState → HostState × List Action
  | .recv peerId msg, s => handleHostReceivedMessage s msg peerId
  | .connClose peerId, s => handleConnClose s peerId
  | .shakeOutcome results, s => hostShakeOutcome s results

/-- The Host state set up in `initHostPeer`'s `peer.on('open')` handler: the
Host itself seeded into Ledger and Registry, no client connections yet. -/
def initHostState (fullId myName : String) (balance : Int) : HostState :=
  { connections := [],
    ledger := [(fullId, getEmptyBets)],
    registry := [(fullId, { id := fullId, name := myName, balance := balance, isHost := true })] }

/-- The aggregate wager view carried by an action, when it publishes one:
either an `UPDATE_GLOBAL_BETS` broadcast or the snapshot inside a
`JOIN_ACCEPTED` send. -/
def Action.aggPayload : Action → Option WagerVector
  | .broadcastMsg (.updateGlobalBets b) => some b
  | .sendTo _ (.joinAccepted b _) => some b
  | _ => none

/-- Does this action broadcast a `PLAYER_LEFT` notification? -/
def Action.isPlayerLeftBroadcast : Action → Bool
  | .broadcastMsg (.playerLeft _) => true
  | _ => false

/-- Is this action a removal mutation of the Registry or the Ledger? -/
def Action.isRemovalMutation : Action → Bool
  | .registryDelete _ => true
  | .ledgerDelete _ => true
  | _ => false

/-- Does this action broadcast the aggregate wager view? -/
def Action.isAggregateBroadcast : Action → Bool
  | .broadcastMsg (.updateGlobalBets _) => true
  | _ => false

/-- Holds of a trace in which no Registry/Ledger removal happens after a
`PLAYER_LEFT` broadcast (i.e. the deletions all precede the departure
notice). -/
def noRemovalAfterLeft : List Action → Bool
  | [] => true
  | a :: rest =>
    (!a.isPlayerLeftBroadcast || rest.all (fun b => !b.isRemovalMutation))
      && noRemovalAfterLeft rest

/-- Holds of a trace in which no Registry/Ledger removal happens after an
aggregate broadcast (i.e. the deletions all precede the aggregate
rebroadcast). -/
def noRemovalAfterAgg : List Action → Bool
  | [] => true
  | a :: rest =>
    (!a.isAggregateBroadcast || rest.all (fun b => !b.isRemovalMutation))
      && noRemovalAfterAgg rest

/-- Holds of a trace in which no `PLAYER_LEFT` broadcast happens after a
Registry/Ledger removal (i.e. the departure notice precedes the deletions). -/
def noLeftAfterRemoval : List Action → Bool
  | [] => true
  | a :: rest =>
    (!a.isRemovalMutation || rest.all (fun b => !b.isPlayerLeftBroadcast))
      && noLeftAfterRemoval rest

/-- Side condition on Host events describing ordinary client behaviour:
`PLACE_BET` and `RESET_BETS` only ever arrive from a peer that is currently
admitted (present in the Membership Registry). All other events are
unrestricted. -/
def eventFromAdmitted (s : HostState) : HostEvent → Prop
  | .recv peerId (.placeBet _ _) => (mapGet s.registry peerId).isSome = true
  | .recv peerId .resetBets => (mapGet s.registry peerId).isSome = true
  | _ => True

/-- Host states reachable from a fresh room under ordinary client behaviour
(bet traffic only from admitted peers). -/
inductive ReachHost : HostState → Prop
  | init (fullId myName : String) (balance : Int) :
      ReachHost (initHostState fullId myName balance)
  | step (s : HostState) (ev : HostEvent) :
      ReachHost s → eventFromAdmitted s ev → ReachHost (hostStep ev s).1

/-- The key sets of the Ledger and the Membership Registry coincide. -/
def sameKeys (s : HostState) : Prop :=
  ∀ k : String, (mapGet s.ledger k).isSome = (mapGet s.registry k).isSome

/-- One local wallet operation of App: a bet click, a reset click, or a
round settlement. -/
inductive LocalOp
  | place (key : GameItemKey)
  | reset
  | settle (results : List GameItemKey)
deriving DecidableEq, Repr

/-- Is this local operation a round settlement? -/
def LocalOp.isSettle : LocalOp → Bool
  | .settle _ => true
  | _ => false

/-- Apply one local wallet operation. -/
def applyLocalOp (s : LocalState) : LocalOp → LocalState
  | .place key => handlePlaceBet s key
  | .reset => handleResetBets s
  | .settle results => (calculateWinnings s results).1

/-- Run a sequence of local wallet operations. -/
def runLocalOps (s : LocalState) (ops : List LocalOp) : LocalState :=
  ops.foldl applyLocalOp s

/-- Fixture: a room with the Host and one connected client `p1`, used to
exercise the removal handlers on concrete data. -/
def sampleRoom : HostState :=
  { connections := ["p1"],
    ledger := [("h", getEmptyBets), ("p1", singleBet .CUA 5000)],
    registry := [("h", ⟨"h", "Chủ Phòng", 100000, true⟩),
                 ("p1", ⟨"p1", "An", 50000, false⟩)] }

/-- Fixture: a room whose Host is itself broke (balance 0), with one client
exactly one unit below the stay threshold and one exactly at it. -/
def sampleBrokeRoom : HostState :=
  { connections := ["a", "b"],
    ledger := [("h", getEmptyBets), ("a", getEmptyBets), ("b", getEmptyBets)],
    registry := [("h", ⟨"h", "Chủ Phòng", 0, true⟩),
                 ("a", ⟨"a", "An", 4999, false⟩),
                 ("b", ⟨"b", "Bình", 5000, false⟩)] }

/-! ## Helper lemmas -/

theorem WagerVector.get_set_self (w : WagerVector) (k : GameItemKey) (v : Nat) :
    (w.set k v).get k = v := by
  cases k <;> rfl

theorem currentTotalBet_set_add (w : WagerVector) (k : GameItemKey) (a : Nat) :
    currentTotalBet (w.set k (w.get k + a)) = currentTotalBet w + a := by
  cases k <;>
    simp [currentTotalBet, allKeys, WagerVector.set, WagerVector.get] <;> omega

theorem currentTotalBet_empty : currentTotalBet getEmptyBets = 0 := by
  decide

theorem keyReturn_spec (bets : WagerVector) (r : List GameItemKey) (k : GameItemKey) :
    keyReturn bets r k =
      if 0 < bets.get k ∧ 0 < r.count k then bets.get k * (1 + r.count k) else 0 := by
  by_cases h : 0 < bets.get k ∧ 0 < r.count k <;>
    simp [keyReturn, h, Nat.mul_add, Nat.mul_one]

theorem totalReturn_spec (bets : WagerVector) (r : List GameItemKey) :
    totalReturn bets r =
      (allKeys.map (fun k =>
        if 0 < bets.get k ∧ 0 < r.count k then bets.get k * (1 + r.count k) else 0)).sum := by
  unfold totalReturn
  have h : keyReturn bets r = fun k =>
      if 0 < bets.get k ∧ 0 < r.count k then bets.get k * (1 + r.count k) else 0 :=
    funext (keyReturn_spec bets r)
  rw [h]

theorem totalReturn_singleBet (k : GameItemKey) (a : Nat) (r : List GameItemKey) :
    totalReturn (singleBet k a) r =
      if 0 < a ∧ 0 < r.count k then a + a * r.count k else 0 := by
  cases k <;>
    simp [totalReturn, allKeys, keyReturn, singleBet, getEmptyBets,
      WagerVector.set, WagerVector.get]

theorem mapGet_mapSet {α : Type} (m : List (String × α)) (k k' : String) (v : α) :
    mapGet (mapSet m k v) k' = if k = k' then some v else mapGet m k' := by
  induction m with
  | nil =>
    by_cases h : k = k' <;> simp [mapSet, mapGet, h]
  | cons e rest ih =>
    obtain ⟨k1, v1⟩ := e
    by_cases h1 : k1 = k
    · subst h1
      by_cases h2 : k1 = k' <;> simp [mapSet, mapGet, h2]
    · by_cases h2 : k1 = k'
      · subst h2
        have : ¬k = k1 := fun h => h1 h.symm
        simp [mapSet, mapGet, h1, this]
      · simp [mapSet, mapGet, h1, h2, ih]

theorem mapGet_mapDelete {α : Type} (m : List (String × α)) (k k' : String) :
    mapGet (mapDelete m k) k' = if k = k' then none else mapGet m k' := by
  induction m with
  | nil =>
    by_cases h : k = k' <;> simp [mapDelete, mapGet, h]
  | cons e rest ih =>
    obtain ⟨k1, v1⟩ := e
    by_cases h1 : k1 = k
    · subst h1
      by_cases h2 : k1 = k'
      · subst h2
        simp [mapDelete, mapGet, ih]
      · simp [mapDelete, mapGet, h2, ih]
    · by_cases h2 : k1 = k'
      · subst h2
        have : ¬k = k1 := fun h => h1 h.symm
        simp [mapDelete, mapGet, h1, this]
      · simp [mapDelete, mapGet, h1, h2, ih]

theorem mapDelete_eq_filter {α : Type} (m : List (String × α)) (k : String) :
    mapDelete m k = m.filter (fun e => e.1 ≠ k) := by
  induction m with
  | nil => simp [mapDelete]
  | cons e rest ih =>
    obtain ⟨k1, v1⟩ := e
    by_cases h1 : k1 = k <;> simp [mapDelete, List.filter, h1, ih]

theorem mem_mapDelete {α : Type} (m : List (String × α)) (k : String) (kv : String × α) :
    kv ∈ mapDelete m k ↔ kv ∈ m ∧ kv.1 ≠ k := by
  rw [mapDelete_eq_filter]
  simp [List.mem_filter]

theorem mapGet_isSome_of_mem {α : Type} (m : List (String × α)) (kv : String × α)
    (h : kv ∈ m) : (mapGet m kv.1).isSome = true := by
  induction m with
  | nil => simp at h
  | cons e rest ih =>
    obtain ⟨k1, v1⟩ := e
    rcases List.mem_cons.mp h with rfl | hm
    · simp [mapGet]
    · by_cases h1 : k1 = kv.1 <;> simp [mapGet, h1, ih hm]

theorem nodup_key_unique {α : Type} (m : List (String × α))
    (hnd : (m.map Prod.fst).Nodup) (k : String) (a b : α)
    (ha : (k, a) ∈ m) (hb : (k, b) ∈ m) : a = b := by
  induction m with
  | nil => simp at ha
  | cons e rest ih =>
    obtain ⟨k1, v1⟩ := e
    simp only [List.map_cons, List.nodup_cons] at hnd
    rcases List.mem_cons.mp ha with h1 | h1 <;> rcases List.mem_cons.mp hb with h2 | h2
    · cases h1; cases h2; rfl
    · cases h1
      exact absurd (List.mem_map_of_mem Prod.fst h2) hnd.1
    · cases h2
      exact absurd (List.mem_map_of_mem Prod.fst h1) hnd.1
    · exact ih hnd.2 h1 h2

/-! ## Claim theorems -/

/-- C1: for every local wager vector and round outcome, `calculateWinnings`
credits the balance with the sum over all item keys of
`bets[key] * (1 + appearances)` when `bets[key] > 0` and the key appears, and
`0` otherwise; in particular a wager of 1000 on one key returns
`0 / 2000 / 3000 / 4000` according to 0 / 1 / 2 / 3 appearances
(`1000 * (1 + c)` with `c = results.count k`), and the local wager vector is
cleared to all zeros afterwards. -/
theorem calculateWinnings_settles_per_key (s : LocalState) (results : List GameItemKey) :
    (calculateWinnings s results).1.balance
      = s.balance
        + (((allKeys.map (fun k =>
            if 0 < s.bets.get k ∧ 0 < results.count k
            then s.bets.get k * (1 + results.count k) else 0)).sum : Nat) : Int)
  ∧ (calculateWinnings s results).1.bets = getEmptyBets
  ∧ ∀ k : GameItemKey, ∀ b : Int, ∀ sh : Bool,
      (calculateWinnings { balance := b, bets := singleBet k 1000, isShaking := sh }
          results).1.balance
        = b + (if results.count k = 0 then 0 else 1000 * (1 + (results.count k : Int))) := by
  refine ⟨?_, rfl, ?_⟩
  · simp [calculateWinnings, totalReturn_spec]
  · intro k b sh
    rcases Nat.eq_zero_or_pos (results.count k) with h | h
    · simp [calculateWinnings, totalReturn_singleBet, h]
    · have hcond : 0 < 1000 ∧ 0 < results.count k := ⟨by omega, h⟩
      have hne : results.count k ≠ 0 := Nat.pos_iff_ne_zero.mp h
      simp only [calculateWinnings, totalReturn_singleBet, if_pos hcond, if_neg hne]
      push_cast
      ring

/-- C8: the settlement is a deterministic function of the pair
(wager vector, round outcome): two local states with the same wager vector
produce the same result payload, the same balance credit, and the same
cleared wager vector, independent of any other state. -/
theorem calculateWinnings_deterministic (s1 s2 : LocalState) (r : List GameItemKey)
    (hbets : s1.bets = s2.bets) :
    (calculateWinnings s1 r).2 = (calculateWinnings s2 r).2
  ∧ (calculateWinnings s1 r).1.balance - s1.balance
      = (calculateWinnings s2 r).1.balance - s2.balance
  ∧ (calculateWinnings s1 r).1.bets = (calculateWinnings s2 r).1.bets := by
  refine ⟨?_, ?_, rfl⟩ <;> simp [calculateWinnings, hbets]

/-- Witness for C8 at concrete inputs: two states sharing the wager vector
but differing in balance and phase settle identically. -/
theorem calculateWinnings_deterministic_witness :
    (calculateWinnings ⟨100000, singleBet .NAI 5000, false⟩ [.NAI, .CA, .CA]).2
      = (calculateWinnings ⟨42, singleBet .NAI 5000, true⟩ [.NAI, .CA, .CA]).2
  ∧ (calculateWinnings ⟨100000, singleBet .NAI 5000, false⟩ [.NAI, .CA, .CA]).1.balance
        - (100000 : Int)
      = (calculateWinnings ⟨42, singleBet .NAI 5000, true⟩ [.NAI, .CA, .CA]).1.balance
        - (42 : Int)
  ∧ (calculateWinnings ⟨100000, singleBet .NAI 5000, false⟩ [.NAI, .CA, .CA]).1.bets
      = (calculateWinnings ⟨42, singleBet .NAI 5000, true⟩ [.NAI, .CA, .CA]).1.bets :=
  calculateWinnings_deterministic
    ⟨100000, singleBet .NAI 5000, false⟩ ⟨42, singleBet .NAI 5000, true⟩
    [.NAI, .CA, .CA] rfl

/-- C9: the Client handler for `UPDATE_GLOBAL_BETS` overwrites (does not
merge into) the mirror of the aggregate wagers, so applying the same
broadcast twice yields exactly the state of applying it once. -/
theorem handleClient_updateGlobalBets_idempotent (s : ClientState) (b : WagerVector) :
    handleClientReceivedMessage
        (handleClientReceivedMessage s (.updateGlobalBets b)) (.updateGlobalBets b)
      = handleClientReceivedMessage s (.updateGlobalBets b)
  ∧ (handleClientReceivedMessage s (.updateGlobalBets b)).globalBets = b := by
  exact ⟨rfl, rfl⟩

theorem handlePlaceBet_isShaking (s : LocalState) (k : GameItemKey) :
    (handlePlaceBet s k).isShaking = s.isShaking := by
  unfold handlePlaceBet
  split
  · rfl
  · split <;> rfl

theorem handlePlaceBet_sum (s : LocalState) (k : GameItemKey) :
    (handlePlaceBet s k).balance + (currentTotalBet (handlePlaceBet s k).bets : Int)
      = s.balance + (currentTotalBet s.bets : Int) := by
  unfold handlePlaceBet
  split
  · rfl
  · split
    · rfl
    · simp only [currentTotalBet_set_add]
      push_cast
      ring

theorem handleResetBets_sum (s : LocalState) :
    (handleResetBets s).balance + (currentTotalBet (handleResetBets s).bets : Int)
      = s.balance + (currentTotalBet s.bets : Int) := by
  unfold handleResetBets
  split
  · rfl
  · simp [currentTotalBet_empty]

theorem applyLocalOp_nonneg (s : LocalState) (op : LocalOp) (h : 0 ≤ s.balance) :
    0 ≤ (applyLocalOp s op).balance := by
  cases op with
  | place k =>
    by_cases hsh : s.isShaking = true
    · simpa [applyLocalOp, handlePlaceBet, hsh] using h
    · by_cases hbal : s.balance < (BET_INCREMENT : Int)
      · simpa [applyLocalOp, handlePlaceBet, hsh, hbal] using h
      · simp only [applyLocalOp, handlePlaceBet, hsh, hbal, if_false, if_neg hbal,
          Bool.false_eq_true, if_neg]
        simp only [BET_INCREMENT] at hbal ⊢
        omega
  | reset =>
    by_cases hsh : s.isShaking = true
    · simpa [applyLocalOp, handleResetBets, hsh] using h
    · simp only [applyLocalOp, handleResetBets, hsh, Bool.false_eq_true, if_neg,
        if_false]
      omega
  | settle r =>
    simp only [applyLocalOp, calculateWinnings]
    omega

theorem runLocalOps_nonneg (ops : List LocalOp) (s : LocalState) (h : 0 ≤ s.balance) :
    0 ≤ (runLocalOps s ops).balance := by
  induction ops generalizing s with
  | nil => exact h
  | cons op rest ih => exact ih (applyLocalOp s op) (applyLocalOp_nonneg s op h)

theorem runLocalOps_sum (ops : List LocalOp) (s : LocalState)
    (hops : ∀ op ∈ ops, op.isSettle = false) :
    (runLocalOps s ops).balance + (currentTotalBet (runLocalOps s ops).bets : Int)
      = s.balance + (currentTotalBet s.bets : Int) := by
  induction ops generalizing s with
  | nil => rfl
  | cons op rest ih =>
    have hop := hops op (List.mem_cons_self op rest)
    have hrest : ∀ o ∈ rest, o.isSettle = false :=
      fun o ho => hops o (List.mem_cons_of_mem _ ho)
    have hstep : (applyLocalOp s op).balance
        + (currentTotalBet (applyLocalOp s op).bets : Int)
        = s.balance + (currentTotalBet s.bets : Int) := by
      cases op with
      | place k => exact handlePlaceBet_sum s k
      | reset => exact handleResetBets_sum s
      | settle r => simp [LocalOp.isSettle] at hop
    calc (runLocalOps s (op :: rest)).balance
          + (currentTotalBet (runLocalOps s (op :: rest)).bets : Int)
        = (applyLocalOp s op).balance
          + (currentTotalBet (applyLocalOp s op).bets : Int) := ih (applyLocalOp s op) hrest
      _ = s.balance + (currentTotalBet s.bets : Int) := hstep

/-- C7: starting from a non-negative balance, the local balance stays
non-negative across every sequence of place-bet, reset-bets and settlement
operations (a bet is refused whenever the balance cannot cover it), and over
any settlement-free round starting with empty bets, the total amount wagered
never exceeds the pre-round balance. -/
theorem placeBet_no_overdraft (ops : List LocalOp) (s0 : LocalState) (h0 : 0 ≤ s0.balance) :
    0 ≤ (runLocalOps s0 ops).balance
  ∧ (s0.bets = getEmptyBets → (∀ op ∈ ops, op.isSettle = false) →
      (currentTotalBet (runLocalOps s0 ops).bets : Int) ≤ s0.balance) := by
  refine ⟨runLocalOps_nonneg ops s0 h0, fun hempty hops => ?_⟩
  have hsum := runLocalOps_sum ops s0 hops
  have hnn := runLocalOps_nonneg ops s0 h0
  rw [hempty, currentTotalBet_empty] at hsum
  omega

/-- Witness for C7: from balance 7000 with empty bets, two bet attempts (one
succeeds, one is refused) and a reset leave the balance non-negative and the
round's wagers within the pre-round balance. -/
theorem placeBet_no_overdraft_witness :
    0 ≤ (runLocalOps ⟨7000, getEmptyBets, false⟩
          [.place .NAI, .place .BAU, .reset]).balance
  ∧ (currentTotalBet (runLocalOps ⟨7000, getEmptyBets, false⟩
          [.place .NAI, .place .BAU, .reset]).bets : Int) ≤ 7000 := by
  have h := placeBet_no_overdraft [.place .NAI, .place .BAU, .reset]
    ⟨7000, getEmptyBets, false⟩ (by decide)
  exact ⟨h.1, h.2 rfl (by decide)⟩

theorem foldPlace_isShaking (ks : List GameItemKey) (s : LocalState) :
    (ks.foldl handlePlaceBet s).isShaking = s.isShaking := by
  induction ks generalizing s with
  | nil => rfl
  | cons k rest ih => rw [List.foldl_cons, ih, handlePlaceBet_isShaking]

theorem foldPlace_sum (ks : List GameItemKey) (s : LocalState) :
    (ks.foldl handlePlaceBet s).balance
        + (currentTotalBet (ks.foldl handlePlaceBet s).bets : Int)
      = s.balance + (currentTotalBet s.bets : Int) := by
  induction ks generalizing s with
  | nil => rfl
  | cons k rest ih =>
    rw [List.foldl_cons]
    calc (rest.foldl handlePlaceBet (handlePlaceBet s k)).balance
          + (currentTotalBet (rest.foldl handlePlaceBet (handlePlaceBet s k)).bets : Int)
        = (handlePlaceBet s k).balance
          + (currentTotalBet (handlePlaceBet s k).bets : Int) := ih (handlePlaceBet s k)
      _ = s.balance + (currentTotalBet s.bets : Int) := handlePlaceBet_sum s k

/-- C10: starting from balance `b0` with empty bets outside the shaking
phase, any sequence of bet clicks followed by one reset restores the balance
to exactly `b0` and clears the wager vector; both operations preserve
balance-plus-total-wagered. -/
theorem placeBets_reset_roundtrip (ks : List GameItemKey) (b0 : Int) :
    (handleResetBets (ks.foldl handlePlaceBet ⟨b0, getEmptyBets, false⟩)).balance = b0
  ∧ (handleResetBets (ks.foldl handlePlaceBet ⟨b0, getEmptyBets, false⟩)).bets
      = getEmptyBets
  ∧ (∀ t : LocalState, ∀ k : GameItemKey, t.isShaking = false →
      (handlePlaceBet t k).balance + (currentTotalBet (handlePlaceBet t k).bets : Int)
          = t.balance + (currentTotalBet t.bets : Int)
      ∧ (handleResetBets t).balance + (currentTotalBet (handleResetBets t).bets : Int)
          = t.balance + (currentTotalBet t.bets : Int)) := by
  have hsh : (ks.foldl handlePlaceBet ⟨b0, getEmptyBets, false⟩).isShaking = false :=
    foldPlace_isShaking ks ⟨b0, getEmptyBets, false⟩
  have hsum := foldPlace_sum ks ⟨b0, getEmptyBets, false⟩
  simp only [currentTotalBet_empty, Nat.cast_zero, add_zero] at hsum
  refine ⟨?_, ?_, fun t k _ => ⟨handlePlaceBet_sum t k, handleResetBets_sum t⟩⟩
  · simp only [handleResetBets, hsh, Bool.false_eq_true, if_neg, if_false]
    omega
  · simp only [handleResetBets, hsh, Bool.false_eq_true, if_neg, if_false]

/-- Witness for C10: two bet clicks then a reset from balance 100000 restore
it, and the preservation clauses hold at a concrete non-shaking state. -/
theorem placeBets_reset_roundtrip_witness :
    (handleResetBets
        ([GameItemKey.NAI, .GA].foldl handlePlaceBet ⟨100000, getEmptyBets, false⟩)).balance
      = 100000
  ∧ (handleResetBets
        ([GameItemKey.NAI, .GA].foldl handlePlaceBet ⟨100000, getEmptyBets, false⟩)).bets
      = getEmptyBets
  ∧ (handlePlaceBet ⟨5000, singleBet .GA 5000, false⟩ .CUA).balance
        + (currentTotalBet (handlePlaceBet ⟨5000, singleBet .GA 5000, false⟩ .CUA).bets : Int)
      = (5000 : Int) + (currentTotalBet (singleBet .GA 5000) : Int) := by
  have h := placeBets_reset_roundtrip [.NAI, .GA] 100000
  exact ⟨h.1, h.2.1, (h.2.2 ⟨5000, singleBet .GA 5000, false⟩ .CUA rfl).1⟩

/-- C3: a join candidate is rejected (with the human-readable minimum-balance
reason, and no state change) exactly when its balance is below
`MIN_BALANCE_TO_JOIN`; with balance at least `MIN_BALANCE_TO_JOIN` it is
admitted: stored in the Registry, given an empty wager vector in the Ledger,
sent the full state snapshot (current aggregate plus full member list), and
sent no rejection. -/
theorem joinRequest_admission (s : HostState) (peerId : String) (info : PlayerInfo) :
    (info.balance < MIN_BALANCE_TO_JOIN →
      handleHostReceivedMessage s (.joinRequest info) peerId
        = (s, [.sendTo peerId (.joinRejected joinRejectReason), .connCloseReq peerId]))
  ∧ (MIN_BALANCE_TO_JOIN ≤ info.balance →
      mapGet (handleHostReceivedMessage s (.joinRequest info) peerId).1.registry peerId
          = some info
      ∧ mapGet (handleHostReceivedMessage s (.joinRequest info) peerId).1.ledger peerId
          = some getEmptyBets
      ∧ Action.sendTo peerId
            (.joinAccepted
              (calculateGlobalBetsFromRef
                (handleHostReceivedMessage s (.joinRequest info) peerId).1.ledger)
              ((handleHostReceivedMessage s (.joinRequest info) peerId).1.registry.map
                Prod.snd))
          ∈ (handleHostReceivedMessage s (.joinRequest info) peerId).2
      ∧ ∀ r : String,
          Action.sendTo peerId (.joinRejected r)
            ∉ (handleHostReceivedMessage s (.joinRequest info) peerId).2) := by
  constructor
  · intro hlt
    simp [handleHostReceivedMessage, hlt]
  · intro hge
    have hlt : ¬info.balance < MIN_BALANCE_TO_JOIN := not_lt.mpr hge
    refine ⟨?_, ?_, ?_, ?_⟩
    · simp [handleHostReceivedMessage, hlt, mapGet_mapSet]
    · simp [handleHostReceivedMessage, hlt, mapGet_mapSet]
    · simp [handleHostReceivedMessage, hlt, updateAndBroadcastGlobalBets,
        updateAndBroadcastLeaderboard]
    · intro r
      simp [handleHostReceivedMessage, hlt, updateAndBroadcastGlobalBets,
        updateAndBroadcastLeaderboard]

/-- Witness for C3: a candidate with balance 9999 is rejected with the
reason message, one with balance 10000 is admitted with an empty wager
vector. -/
theorem joinRequest_admission_witness :
    handleHostReceivedMessage (initHostState "h" "Tâm" 100000)
        (.joinRequest ⟨"pA", "An", 9999, false⟩) "pA"
      = (initHostState "h" "Tâm" 100000,
         [.sendTo "pA" (.joinRejected joinRejectReason), .connCloseReq "pA"])
  ∧ mapGet (handleHostReceivedMessage (initHostState "h" "Tâm" 100000)
        (.joinRequest ⟨"pB", "Bình", 10000, false⟩) "pB").1.registry "pB"
      = some ⟨"pB", "Bình", 10000, false⟩
  ∧ mapGet (handleHostReceivedMessage (initHostState "h" "Tâm" 100000)
        (.joinRequest ⟨"pB", "Bình", 10000, false⟩) "pB").1.ledger "pB"
      = some getEmptyBets := by
  refine ⟨(joinRequest_admission (initHostState "h" "Tâm" 100000) "pA"
      ⟨"pA", "An", 9999, false⟩).1 (by decide), ?_, ?_⟩
  · exact ((joinRequest_admission (initHostState "h" "Tâm" 100000) "pB"
      ⟨"pB", "Bình", 10000, false⟩).2 (by decide)).1
  · exact ((joinRequest_admission (initHostState "h" "Tâm" 100000) "pB"
      ⟨"pB", "Bình", 10000, false⟩).2 (by decide)).2.1

theorem kickOne_no_agg (s : HostState) (pid : String) :
    ((kickOne s pid).2).all (fun a => !a.isAggregateBroadcast) = true := by
  unfold kickOne
  split
  · rfl
  · rfl

theorem kickOne_noLeftAfterRemoval (s : HostState) (pid : String) :
    noLeftAfterRemoval (kickOne s pid).2 = true := by
  unfold kickOne
  split
  · rfl
  · rfl

theorem kickAll_no_agg (pids : List String) (s : HostState) :
    ((kickAll pids s).2).all (fun a => !a.isAggregateBroadcast) = true := by
  induction pids generalizing s with
  | nil => rfl
  | cons pid rest ih =>
    simp only [kickAll, List.all_append, Bool.and_eq_true]
    exact ⟨kickOne_no_agg s pid, ih (kickOne s pid).1⟩

theorem noRemovalAfterAgg_of_no_agg (A : List Action)
    (hA : A.all (fun a => !a.isAggregateBroadcast) = true) :
    noRemovalAfterAgg A = true := by
  induction A with
  | nil => rfl
  | cons a rest ih =>
    simp only [List.all_cons, Bool.and_eq_true] at hA
    simp [noRemovalAfterAgg, hA.1, ih hA.2]

theorem noRemovalAfterAgg_append (A B : List Action)
    (hA : A.all (fun a => !a.isAggregateBroadcast) = true)
    (hB : noRemovalAfterAgg B = true) :
    noRemovalAfterAgg (A ++ B) = true := by
  induction A with
  | nil => simpa using hB
  | cons a rest ih =>
    simp only [List.all_cons, Bool.and_eq_true] at hA
    simp only [List.cons_append, noRemovalAfterAgg, Bool.and_eq_true]
    exact ⟨by simp [hA.1], ih hA.2⟩

theorem checkAndKick_noRemovalAfterAgg (s : HostState) :
    noRemovalAfterAgg (checkAndKickBrokePlayers s).2 = true := by
  simp only [checkAndKickBrokePlayers]
  split
  · exact noRemovalAfterAgg_of_no_agg _ (kickAll_no_agg _ _)
  · rw [List.append_assoc]
    exact noRemovalAfterAgg_append _ _ (kickAll_no_agg _ _) rfl

/-- Counterexample to C5: on a link close in a concrete room, the Host
broadcasts the `PLAYER_LEFT` notification and only afterwards deletes the
participant from Registry and Ledger, so the claimed delete-before-broadcast
ordering fails. -/
theorem connClose_left_broadcast_precedes_delete :
    noRemovalAfterLeft (handleConnClose sampleRoom "p1").2 = false := by
  decide

/-- C5 (amended): on every removal — link close or eviction — the Registry
and Ledger deletions strictly precede the recomputed aggregate broadcast,
but the `PLAYER_LEFT` notification is broadcast before the deletions (for a
registered peer it is always emitted), not after them. -/
theorem removal_mutation_broadcast_order (s : HostState) (peerId : String) :
    noRemovalAfterAgg (handleConnClose s peerId).2 = true
  ∧ noLeftAfterRemoval (handleConnClose s peerId).2 = true
  ∧ noRemovalAfterAgg (checkAndKickBrokePlayers s).2 = true
  ∧ noLeftAfterRemoval (kickOne s peerId).2 = true
  ∧ ∀ p : PlayerInfo, mapGet s.registry peerId = some p →
      Action.broadcastMsg (.playerLeft p.name) ∈ (handleConnClose s peerId).2 := by
  refine ⟨?_, ?_, checkAndKick_noRemovalAfterAgg s, kickOne_noLeftAfterRemoval s peerId, ?_⟩
  · cases hreg : mapGet s.registry peerId <;>
      simp [handleConnClose, hreg, updateAndBroadcastGlobalBets,
        updateAndBroadcastLeaderboard, noRemovalAfterAgg, Action.isRemovalMutation,
        Action.isAggregateBroadcast]
  · cases hreg : mapGet s.registry peerId <;>
      simp [handleConnClose, hreg, updateAndBroadcastGlobalBets,
        updateAndBroadcastLeaderboard, noLeftAfterRemoval, Action.isRemovalMutation,
        Action.isPlayerLeftBroadcast]
  · intro p hreg
    simp [handleConnClose, hreg]

/-- Witness for the amended C5: in the concrete room, closing client `p1`'s
link does broadcast the departure of "An". -/
theorem removal_mutation_broadcast_order_witness :
    Action.broadcastMsg (.playerLeft "An") ∈ (handleConnClose sampleRoom "p1").2 :=
  (removal_mutation_broadcast_order sampleRoom "p1").2.2.2.2
    ⟨"p1", "An", 50000, false⟩ (by decide)

theorem kickOne_no_aggPayload (s : HostState) (pid : String) :
    ∀ a ∈ (kickOne s pid).2, a.aggPayload = none := by
  intro a ha
  revert ha
  unfold kickOne
  split
  · intro ha
    simp only [List.mem_cons, List.not_mem_nil, or_false] at ha
    rcases ha with rfl | rfl | rfl | rfl | rfl | rfl <;> rfl
  · intro ha
    simp at ha

theorem kickAll_no_aggPayload (pids : List String) (s : HostState) :
    ∀ a ∈ (kickAll pids s).2, a.aggPayload = none := by
  induction pids generalizing s with
  | nil =>
    intro a ha
    simp [kickAll] at ha
  | cons pid rest ih =>
    intro a ha
    simp only [kickAll, List.mem_append] at ha
    rcases ha with ha | ha
    · exact kickOne_no_aggPayload s pid a ha
    · exact ih (kickOne s pid).1 a ha

theorem checkAndKick_agg_fresh (s : HostState) :
    ∀ a ∈ (checkAndKickBrokePlayers s).2, ∀ b : WagerVector, a.aggPayload = some b →
      b = calculateGlobalBetsFromRef (checkAndKickBrokePlayers s).1.ledger := by
  intro a ha b hab
  simp only [checkAndKickBrokePlayers] at ha ⊢
  by_cases hemp : (playersToKick s).isEmpty = true
  · rw [if_pos hemp] at ha ⊢
    rw [kickAll_no_aggPayload _ _ a ha] at hab
    cases hab
  · rw [if_neg hemp] at ha ⊢
    simp only [List.append_assoc, List.mem_append] at ha
    rcases ha with ha | ha
    · rw [kickAll_no_aggPayload _ _ a ha] at hab
      cases hab
    · simp only [updateAndBroadcastGlobalBets, updateAndBroadcastLeaderboard,
        List.mem_append, List.mem_singleton, List.mem_cons, List.not_mem_nil,
        or_false] at ha
      rcases ha with rfl | rfl
      · simp only [Action.aggPayload, Option.some.injEq] at hab
        exact hab.symm
      · simp [Action.aggPayload] at hab

/-- C2: every aggregate wager view the Host publishes — the
`UPDATE_GLOBAL_BETS` broadcast and the snapshot inside `JOIN_ACCEPTED`,
across bet placement, bet reset, admission, removal, eviction and round
end — equals the key-wise Ledger sum of the state the handler leaves behind:
recomputed after every mutation, never stale. -/
theorem hostStep_publishes_fresh_aggregate (ev : HostEvent) (s : HostState) :
    ∀ a ∈ (hostStep ev s).2, ∀ b : WagerVector, a.aggPayload = some b →
      b = calculateGlobalBetsFromRef (hostStep ev s).1.ledger := by
  intro a ha b hab
  cases ev with
  | connClose pid =>
    cases hreg : mapGet s.registry pid with
    | none =>
      simp only [hostStep, handleConnClose, hreg, updateAndBroadcastGlobalBets,
        updateAndBroadcastLeaderboard, List.cons_append, List.nil_append,
        List.mem_cons, List.not_mem_nil, or_false] at ha ⊢
      rcases ha with rfl | rfl | rfl | rfl | rfl
      · simp [Action.aggPayload] at hab
      · simp [Action.aggPayload] at hab
      · simp [Action.aggPayload] at hab
      · simp only [Action.aggPayload, Option.some.injEq] at hab
        exact hab.symm
      · simp [Action.aggPayload] at hab
    | some player =>
      simp only [hostStep, handleConnClose, hreg, updateAndBroadcastGlobalBets,
        updateAndBroadcastLeaderboard, List.cons_append, List.nil_append,
        List.mem_cons, List.not_mem_nil, or_false] at ha ⊢
      rcases ha with rfl | rfl | rfl | rfl | rfl | rfl
      · simp [Action.aggPayload] at hab
      · simp [Action.aggPayload] at hab
      · simp [Action.aggPayload] at hab
      · simp [Action.aggPayload] at hab
      · simp only [Action.aggPayload, Option.some.injEq] at hab
        exact hab.symm
      · simp [Action.aggPayload] at hab
  | shakeOutcome results =>
    simp only [hostStep, hostShakeOutcome, updateAndBroadcastGlobalBets,
      List.cons_append, List.nil_append, List.mem_cons, List.mem_append,
      List.mem_map, List.not_mem_nil, or_false] at ha ⊢
    rcases ha with rfl | ⟨e, _, rfl⟩ | rfl
    · simp [Action.aggPayload] at hab
    · simp [Action.aggPayload] at hab
    · simp only [Action.aggPayload, Option.some.injEq] at hab
      exact hab.symm
  | recv pid msg =>
    cases msg with
    | joinRequest info =>
      by_cases hbal : info.balance < MIN_BALANCE_TO_JOIN
      · simp only [hostStep, handleHostReceivedMessage, if_pos hbal, List.mem_cons,
          List.not_mem_nil, or_false] at ha
        rcases ha with rfl | rfl <;> simp [Action.aggPayload] at hab
      · simp only [hostStep, handleHostReceivedMessage, if_neg hbal,
          updateAndBroadcastGlobalBets, updateAndBroadcastLeaderboard,
          List.cons_append, List.nil_append, List.mem_cons, List.not_mem_nil,
          or_false] at ha ⊢
        rcases ha with rfl | rfl | rfl | rfl | rfl | rfl | rfl
        · simp [Action.aggPayload] at hab
        · simp [Action.aggPayload] at hab
        · simp [Action.aggPayload] at hab
        · simp only [Action.aggPayload, Option.some.injEq] at hab
          exact hab.symm
        · simp [Action.aggPayload] at hab
        · simp only [Action.aggPayload, Option.some.injEq] at hab
          exact hab.symm
        · simp [Action.aggPayload] at hab
    | placeBet key amount =>
      simp only [hostStep, handleHostReceivedMessage, updateAndBroadcastGlobalBets,
        List.cons_append, List.nil_append, List.mem_cons, List.not_mem_nil,
        or_false] at ha ⊢
      rcases ha with rfl | rfl
      · simp [Action.aggPayload] at hab
      · simp only [Action.aggPayload, Option.some.injEq] at hab
        exact hab.symm
    | resetBets =>
      simp only [hostStep, handleHostReceivedMessage, updateAndBroadcastGlobalBets,
        List.cons_append, List.nil_append, List.mem_cons, List.not_mem_nil,
        or_false] at ha ⊢
      rcases ha with rfl | rfl
      · simp [Action.aggPayload] at hab
      · simp only [Action.aggPayload, Option.some.injEq] at hab
        exact hab.symm
    | playerUpdate info =>
      cases hreg : mapGet s.registry pid with
      | none =>
        simp [hostStep, handleHostReceivedMessage, hreg] at ha
      | some q =>
        by_cases hbal : info.balance < MIN_BALANCE_TO_STAY
        · simp only [hostStep, handleHostReceivedMessage, hreg, if_pos hbal,
            updateAndBroadcastLeaderboard, List.cons_append, List.nil_append,
            List.mem_cons, List.not_mem_nil, or_false] at ha ⊢
          rcases ha with rfl | rfl | ha
          · simp [Action.aggPayload] at hab
          · simp [Action.aggPayload] at hab
          · exact checkAndKick_agg_fresh _ a ha b hab
        · simp only [hostStep, handleHostReceivedMessage, hreg, if_neg hbal,
            updateAndBroadcastLeaderboard, List.cons_append, List.nil_append,
            List.mem_cons, List.not_mem_nil, or_false] at ha
          rcases ha with rfl | rfl <;> simp [Action.aggPayload] at hab
    | shakeStart => simp [hostStep, handleHostReceivedMessage] at ha
    | shakeResult r => simp [hostStep, handleHostReceivedMessage] at ha
    | updateGlobalBets w => simp [hostStep, handleHostReceivedMessage] at ha
    | leaderboardUpdate ps => simp [hostStep, handleHostReceivedMessage] at ha
    | playerJoined n => simp [hostStep, handleHostReceivedMessage] at ha
    | playerLeft n => simp [hostStep, handleHostReceivedMessage] at ha
    | kickedNoMoney => simp [hostStep, handleHostReceivedMessage] at ha
    | joinAccepted w ps => simp [hostStep, handleHostReceivedMessage] at ha
    | joinRejected r => simp [hostStep, handleHostReceivedMessage] at ha

/-- Witness for C2: the Host placing one bet broadcasts exactly the key-wise
sum of the post-mutation Ledger. -/
theorem hostStep_publishes_fresh_aggregate_witness :
    (⟨5000, 0, 0, 0, 0, 0⟩ : WagerVector)
      = calculateGlobalBetsFromRef
          ((hostStep (.recv "h" (.placeBet .NAI 5000))
            (initHostState "h" "Tâm" 100000)).1.ledger) :=
  hostStep_publishes_fresh_aggregate (.recv "h" (.placeBet .NAI 5000))
    (initHostState "h" "Tâm" 100000)
    (Action.broadcastMsg (.updateGlobalBets ⟨5000, 0, 0, 0, 0, 0⟩))
    (by decide) ⟨5000, 0, 0, 0, 0, 0⟩ (by decide)

theorem mapGet_resetAll (m : List (String × WagerVector)) (k : String) :
    (mapGet (m.map (fun e => (e.1, getEmptyBets))) k).isSome = (mapGet m k).isSome := by
  induction m with
  | nil => rfl
  | cons e rest ih =>
    obtain ⟨k1, v1⟩ := e
    by_cases h : k1 = k <;> simp [mapGet, h, ih]

theorem kickOne_sameKeys (s : HostState) (pid : String) (h : sameKeys s) :
    sameKeys (kickOne s pid).1 := by
  unfold kickOne
  split
  · intro k
    simp only [mapGet_mapDelete]
    by_cases hk : pid = k <;> simp [hk, h k]
  · exact h

theorem kickAll_sameKeys (pids : List String) (s : HostState) (h : sameKeys s) :
    sameKeys (kickAll pids s).1 := by
  induction pids generalizing s with
  | nil => exact h
  | cons pid rest ih => exact ih (kickOne s pid).1 (kickOne_sameKeys s pid h)

theorem checkAndKick_fst (s : HostState) :
    (checkAndKickBrokePlayers s).1 = (kickAll (playersToKick s) s).1 := by
  simp only [checkAndKickBrokePlayers]
  split <;> rfl

theorem checkAndKick_sameKeys (s : HostState) (h : sameKeys s) :
    sameKeys (checkAndKickBrokePlayers s).1 := by
  rw [checkAndKick_fst]
  exact kickAll_sameKeys (playersToKick s) s h

theorem hostStep_sameKeys (ev : HostEvent) (s : HostState)
    (h : sameKeys s) (hadm : eventFromAdmitted s ev) : sameKeys (hostStep ev s).1 := by
  cases ev with
  | connClose pid =>
    intro k
    simp only [hostStep, handleConnClose, mapGet_mapDelete]
    by_cases hk : pid = k <;> simp [hk, h k]
  | shakeOutcome results =>
    intro k
    simp only [hostStep, hostShakeOutcome, mapGet_resetAll]
    exact h k
  | recv pid msg =>
    cases msg with
    | joinRequest info =>
      by_cases hbal : info.balance < MIN_BALANCE_TO_JOIN
      · intro k
        simp only [hostStep, handleHostReceivedMessage, if_pos hbal]
        exact h k
      · intro k
        simp only [hostStep, handleHostReceivedMessage, if_neg hbal, mapGet_mapSet]
        by_cases hk : pid = k <;> simp [hk, h k]
    | placeBet key amount =>
      intro k
      simp only [eventFromAdmitted] at hadm
      simp only [hostStep, handleHostReceivedMessage, mapGet_mapSet]
      by_cases hk : pid = k
      · subst hk
        simp [hadm]
      · simp [hk, h k]
    | resetBets =>
      intro k
      simp only [eventFromAdmitted] at hadm
      simp only [hostStep, handleHostReceivedMessage, mapGet_mapSet]
      by_cases hk : pid = k
      · subst hk
        simp [hadm]
      · simp [hk, h k]
    | playerUpdate info =>
      cases hreg : mapGet s.registry pid with
      | none =>
        intro k
        simp only [hostStep, handleHostReceivedMessage, hreg]
        exact h k
      | some q =>
        have h1 : sameKeys { s with registry := mapSet s.registry pid info } := by
          intro k
          simp only [mapGet_mapSet]
          by_cases hk : pid = k
          · subst hk
            simp [h pid, hreg]
          · simp [hk, h k]
        by_cases hbal : info.balance < MIN_BALANCE_TO_STAY
        · intro k
          simp only [hostStep, handleHostReceivedMessage, hreg, if_pos hbal]
          exact checkAndKick_sameKeys _ h1 k
        · intro k
          simp only [hostStep, handleHostReceivedMessage, hreg, if_neg hbal]
          exact h1 k
    | shakeStart => exact h
    | shakeResult r => exact h
    | updateGlobalBets w => exact h
    | leaderboardUpdate ps => exact h
    | playerJoined n => exact h
    | playerLeft n => exact h
    | kickedNoMoney => exact h
    | joinAccepted w ps => exact h
    | joinRejected r => exact h

/-- Counterexample to C6: a `PLACE_BET` from a peer that was never admitted
makes the Host's `PLACE_BET` handler create a Ledger entry for it, while the
Registry has no such member — the Ledger key set then differs from the
admitted set. -/
theorem placeBet_creates_unadmitted_ledger_entry :
    (mapGet (hostStep (.recv "rogue" (.placeBet .NAI 5000))
        (initHostState "host1" "Tâm" 100000)).1.ledger "rogue").isSome = true
  ∧ (mapGet (hostStep (.recv "rogue" (.placeBet .NAI 5000))
        (initHostState "host1" "Tâm" 100000)).1.registry "rogue").isSome = false := by
  decide

/-- C6 (amended): in every Host state reachable when bet traffic
(`PLACE_BET` / `RESET_BETS`) only arrives from admitted peers, the Ledger's
key set equals the Membership Registry's key set (the admitted participants,
Host included); the restriction is necessary because those two handlers
upsert the Ledger unconditionally, so a message from a never-admitted peer
creates a Ledger entry without admission. -/
theorem reachable_ledger_registry_same_keys (s : HostState) (h : ReachHost s) :
    sameKeys s := by
  induction h with
  | init fullId myName balance =>
    intro k
    by_cases hk : fullId = k <;> simp [initHostState, mapGet, hk]
  | step s ev hs hadm ih => exact hostStep_sameKeys ev s ih hadm

/-- Witness for the amended C6: after a fresh room admits one client, Ledger
and Registry key sets agree. -/
theorem reachable_ledger_registry_same_keys_witness :
    sameKeys (hostStep (.recv "p2" (.joinRequest ⟨"p2", "Bình", 50000, false⟩))
      (initHostState "h" "Tâm" 100000)).1 :=
  reachable_ledger_registry_same_keys _
    (ReachHost.step (initHostState "h" "Tâm" 100000)
      (.recv "p2" (.joinRequest ⟨"p2", "Bình", 50000, false⟩))
      (ReachHost.init "h" "Tâm" 100000) trivial)

theorem kickAll_registry (pids : List String) (s : HostState)
    (hnd : pids.Nodup)
    (hcond : ∀ pid ∈ pids, pid ∈ s.connections ∧ (mapGet s.registry pid).isSome = true) :
    ∀ kv : String × PlayerInfo,
      (kv ∈ (kickAll pids s).1.registry ↔ kv ∈ s.registry ∧ kv.1 ∉ pids) := by
  induction pids generalizing s with
  | nil =>
    intro kv
    simp [kickAll]
  | cons pid rest ih =>
    intro kv
    obtain ⟨hconn, hsome⟩ := hcond pid (List.mem_cons_self _ _)
    obtain ⟨player, hplayer⟩ := Option.isSome_iff_exists.mp hsome
    have hc : s.connections.contains pid = true := by
      simpa using hconn
    have hnd' := List.nodup_cons.mp hnd
    have hk1 : (kickOne s pid).1 =
        { connections := s.connections.filter (fun c => c ≠ pid),
          ledger := mapDelete s.ledger pid,
          registry := mapDelete s.registry pid } := by
      unfold kickOne
      rw [hplayer, hc]
    have hstep : (kickAll (pid :: rest) s).1 = (kickAll rest (kickOne s pid).1).1 := rfl
    rw [hstep, hk1]
    have hcond' : ∀ q ∈ rest,
        q ∈ (s.connections.filter (fun c => c ≠ pid))
          ∧ (mapGet (mapDelete s.registry pid) q).isSome = true := by
      intro q hq
      obtain ⟨hqc, hqs⟩ := hcond q (List.mem_cons_of_mem _ hq)
      have hqne : q ≠ pid := fun hEq => hnd'.1 (hEq ▸ hq)
      refine ⟨?_, ?_⟩
      · simp [List.mem_filter, hqc, hqne]
      · rw [mapGet_mapDelete, if_neg (fun hEq => hqne hEq.symm)]
        exact hqs
    rw [ih _ hnd'.2 hcond' kv, mem_mapDelete]
    simp only [List.mem_cons, not_or]
    tauto

/-- C4: when every non-host member has a live connection (as every admitted
member does) and Registry keys are unique, `checkAndKickBrokePlayers` keeps
a member if and only if it is the Host or its balance is at least
`MIN_BALANCE_TO_STAY`: a non-host at `MIN_BALANCE_TO_STAY - 1` is expelled,
one at exactly `MIN_BALANCE_TO_STAY` stays, and the Host is never expelled
even when broke. -/
theorem checkAndKick_expels_exactly_broke (s : HostState)
    (hnd : (s.registry.map Prod.fst).Nodup)
    (hconn : ∀ e ∈ s.registry, e.2.isHost = false → e.1 ∈ s.connections) :
    ∀ pid : String, ∀ p : PlayerInfo,
      ((pid, p) ∈ (checkAndKickBrokePlayers s).1.registry
        ↔ ((pid, p) ∈ s.registry ∧ (p.isHost = true ∨ MIN_BALANCE_TO_STAY ≤ p.balance))) := by
  intro pid p
  rw [checkAndKick_fst]
  have hndk : (playersToKick s).Nodup := by
    have hsub : (s.registry.filter
        (fun e => !e.2.isHost && decide (e.2.balance < MIN_BALANCE_TO_STAY))).Sublist
          s.registry := List.filter_sublist _
    exact List.Nodup.sublist (hsub.map Prod.fst) hnd
  have hcondk : ∀ q ∈ playersToKick s,
      q ∈ s.connections ∧ (mapGet s.registry q).isSome = true := by
    intro q hq
    simp only [playersToKick, List.mem_map, List.mem_filter] at hq
    obtain ⟨e, ⟨he, hpred⟩, rfl⟩ := hq
    simp only [Bool.and_eq_true, Bool.not_eq_true', decide_eq_true_eq] at hpred
    exact ⟨hconn e he hpred.1, mapGet_isSome_of_mem _ e he⟩
  rw [kickAll_registry (playersToKick s) s hndk hcondk (pid, p)]
  constructor
  · rintro ⟨hm, hnk⟩
    refine ⟨hm, ?_⟩
    by_contra hcontra
    push_neg at hcontra
    obtain ⟨hhost, hbal⟩ := hcontra
    apply hnk
    simp only [playersToKick, List.mem_map]
    refine ⟨(pid, p), ?_, rfl⟩
    simp only [List.mem_filter, Bool.and_eq_true, Bool.not_eq_true', decide_eq_true_eq]
    have hfalse : p.isHost = false := by
      revert hhost
      cases p.isHost <;> simp
    exact ⟨hm, hfalse, hbal⟩
  · rintro ⟨hm, hok⟩
    refine ⟨hm, fun hk => ?_⟩
    simp only [playersToKick, List.mem_map, List.mem_filter] at hk
    obtain ⟨e, ⟨he, hpred⟩, heq⟩ := hk
    obtain ⟨e1, e2⟩ := e
    simp only at heq
    subst heq
    simp only [Bool.and_eq_true, Bool.not_eq_true', decide_eq_true_eq] at hpred
    have hep : e2 = p := nodup_key_unique s.registry hnd e1 e2 p he hm
    subst hep
    rcases hok with hh | hb
    · rw [hpred.1] at hh
      cases hh
    · have := hpred.2
      omega

/-- Witness for C4: in a room whose Host is broke (balance 0), the Host and
the client at exactly the stay threshold (5000) survive the eviction scan,
while the client at 4999 is expelled. -/
theorem checkAndKick_expels_exactly_broke_witness :
    (("h", (⟨"h", "Chủ Phòng", 0, true⟩ : PlayerInfo))
        ∈ (checkAndKickBrokePlayers sampleBrokeRoom).1.registry)
  ∧ (("b", (⟨"b", "Bình", 5000, false⟩ : PlayerInfo))
        ∈ (checkAndKickBrokePlayers sampleBrokeRoom).1.registry)
  ∧ (("a", (⟨"a", "An", 4999, false⟩ : PlayerInfo))
        ∉ (checkAndKickBrokePlayers sampleBrokeRoom).1.registry) := by
  have h := checkAndKick_expels_exactly_broke sampleBrokeRoom (by decide) (by decide)
  refine ⟨(h "h" ⟨"h", "Chủ Phòng", 0, true⟩).mpr (by decide),
          (h "b" ⟨"b", "Bình", 5000, false⟩).mpr (by decide),
          fun hc => ?_⟩
  exact absurd ((h "a" ⟨"a", "An", 4999, false⟩).mp hc).2 (by decide)

end BauCua
